import Mathlib

/-!
Shallow embedding of `source_merger.py` (DirectoryMarkdownGenerator).

Paths are strings with `/` separators, file bodies are byte lists
(`List Nat`, each element < 256), a filesystem snapshot is an association
list from path to bytes.  Python's text-mode reads are modelled by
explicit UTF-8 / UTF-16 decoders plus universal-newline translation.
External collaborators (libmagic, the minifier libraries, git) are
parameters of the definitions that call them.
-/

/-- Model of `str.lower()` (ASCII, which is all the code compares). -/
def lowerStr (s : String) : String := String.mk (s.data.map Char.toLower)

/-- Model of `os.path.basename`: the part after the last `/`. -/
def basenameChars (s : List Char) : List Char :=
  s.foldl (fun acc c => if c = '/' then [] else acc ++ [c]) []

def basenameStr (p : String) : String := String.mk (basenameChars p.data)

/-- Model of `os.path.splitext(p)[-1]` (posix): the suffix of the basename
starting at its last dot, empty when the only dots are leading dots of the
basename (so `".env"` has extension `""`). -/
def splitextExt (p : String) : String :=
  let b := basenameChars p.data
  let rev := b.reverse
  let afterRev := rev.takeWhile (fun c => c ≠ '.')
  match rev.drop afterRev.length with
  | [] => ""
  | _ :: pre => if pre.any (fun c => c ≠ '.') then String.mk ('.' :: afterRev.reverse) else ""

/-- Model of `os.path.join` for the shapes the program uses. -/
def joinPath (a b : String) : String :=
  if a = "" then b
  else if a.data.getLast? = some '/' then a ++ b
  else a ++ "/" ++ b

/-- Model of `os.path.relpath(p, base)` for a path lying under `base`. -/
def relpath (p base : String) : String :=
  if (base ++ "/").data.isPrefixOf p.data then String.mk (p.data.drop (base ++ "/").length)
  else p

/-- Model of `str.endswith`. -/
def endsWithStr (s ext : String) : Bool := ext.data.isSuffixOf s.data

def infixChars (pat : List Char) : List Char → Bool
  | [] => pat.isEmpty
  | c :: rest => pat.isPrefixOf (c :: rest) || infixChars pat rest

/-- Model of Python's substring test `pat in s`. -/
def strContains (s pat : String) : Bool := infixChars pat.data s.data

def replaceCharsAux (pat rep : List Char) : Nat → List Char → List Char
  | _, [] => []
  | 0, s => s
  | fuel + 1, c :: rest =>
    if !pat.isEmpty && pat.isPrefixOf (c :: rest) then
      rep ++ replaceCharsAux pat rep fuel (rest.drop (pat.length - 1))
    else c :: replaceCharsAux pat rep fuel rest

/-- Model of Python's `s.replace(pat, rep)` for a non-empty `pat`:
leftmost, non-overlapping, no rescan of the replacement. -/
def replaceStr (s pat rep : String) : String :=
  String.mk (replaceCharsAux pat.data rep.data s.data.length s.data)

/-- Universal-newline translation performed by Python text-mode reads. -/
def univNewlines : List Char → List Char
  | [] => []
  | '\r' :: '\n' :: rest => '\n' :: univNewlines rest
  | '\r' :: rest => '\n' :: univNewlines rest
  | c :: rest => c :: univNewlines rest

/-- Model of `f.readlines()`: split after each newline, keeping the ends. -/
def splitLinesChars : List Char → List (List Char)
  | [] => []
  | c :: rest =>
    if c = '\n' then ['\n'] :: splitLinesChars rest
    else
      match splitLinesChars rest with
      | [] => [[c]]
      | line :: more => (c :: line) :: more

def splitLinesKeepEnds (s : String) : List String := (splitLinesChars s.data).map String.mk

def isCont (b : Nat) : Bool := 128 ≤ b && b ≤ 191

def cont2ok (b b2 : Nat) : Bool :=
  if b = 224 then 160 ≤ b2 && b2 ≤ 191
  else if b = 237 then 128 ≤ b2 && b2 ≤ 159
  else isCont b2

def cont3ok (b b2 : Nat) : Bool :=
  if b = 240 then 144 ≤ b2 && b2 ≤ 191
  else if b = 244 then 128 ≤ b2 && b2 ≤ 143
  else isCont b2

/-- Decode one UTF-8 scalar from the front of the byte list (strict). -/
def utf8Decode1 : List Nat → Option (Char × List Nat)
  | [] => none
  | b :: rest =>
    if b < 128 then some (Char.ofNat b, rest)
    else if 194 ≤ b && b ≤ 223 then
      match rest with
      | b2 :: r => if isCont b2 then some (Char.ofNat ((b - 192) * 64 + (b2 - 128)), r) else none
      | [] => none
    else if 224 ≤ b && b ≤ 239 then
      match rest with
      | b2 :: b3 :: r =>
        if cont2ok b b2 && isCont b3 then
          some (Char.ofNat ((b - 224) * 4096 + (b2 - 128) * 64 + (b3 - 128)), r)
        else none
      | _ => none
    else if 240 ≤ b && b ≤ 244 then
      match rest with
      | b2 :: b3 :: b4 :: r =>
        if cont3ok b b2 && isCont b3 && isCont b4 then
          some (Char.ofNat ((b - 240) * 262144 + (b2 - 128) * 4096 + (b3 - 128) * 64 + (b4 - 128)), r)
        else none
      | _ => none
    else none

def utf8StrictAux : Nat → List Nat → Option (List Char)
  | _, [] => some []
  | 0, _ :: _ => none
  | fuel + 1, b :: rest =>
    match utf8Decode1 (b :: rest) with
    | some cr =>
      match utf8StrictAux fuel cr.2 with
      | some cs => some (cr.1 :: cs)
      | none => none
    | none => none

/-- Strict UTF-8 decode of a whole byte string (`errors='strict'`):
`none` models a raised `UnicodeDecodeError`. -/
def utf8StrictAll (l : List Nat) : Option (List Char) := utf8StrictAux l.length l

def utf8IgnoreAux : Nat → List Nat → List Char
  | _, [] => []
  | 0, _ :: _ => []
  | fuel + 1, b :: rest =>
    match utf8Decode1 (b :: rest) with
    | some cr => cr.1 :: utf8IgnoreAux fuel cr.2
    | none => utf8IgnoreAux fuel rest

/-- UTF-8 decode with `errors='ignore'`: undecodable bytes are skipped;
this decode is total, it can never raise. -/
def utf8Ignore (l : List Nat) : List Char := utf8IgnoreAux l.length l

def utf16IgnoreAux (le : Bool) : Nat → List Nat → List Char
  | _, [] => []
  | _, [_] => []
  | 0, _ => []
  | fuel + 1, b1 :: b2 :: rest =>
    let u := if le then b1 + 256 * b2 else 256 * b1 + b2
    if 55296 ≤ u && u ≤ 56319 then
      match rest with
      | b3 :: b4 :: r2 =>
        let u2 := if le then b3 + 256 * b4 else 256 * b3 + b4
        if 56320 ≤ u2 && u2 ≤ 57343 then
          Char.ofNat (65536 + (u - 55296) * 1024 + (u2 - 56320)) :: utf16IgnoreAux le fuel r2
        else utf16IgnoreAux le fuel rest
      | _ => []
    else if 56320 ≤ u && u ≤ 57343 then utf16IgnoreAux le fuel rest
    else Char.ofNat u :: utf16IgnoreAux le fuel rest

/-- Python `utf-16` codec with `errors='ignore'`: honours a BOM, defaults to
little-endian, skips lone surrogates and a truncated trailing byte. -/
def utf16Ignore (l : List Nat) : List Char :=
  match l with
  | 255 :: 254 :: rest => utf16IgnoreAux true rest.length rest
  | 254 :: 255 :: rest => utf16IgnoreAux false rest.length rest
  | _ => utf16IgnoreAux true l.length l

/-- A filesystem snapshot: association list from path to file bytes. -/
abbrev FileSystem := List (String × List Nat)

def isfile (fs : FileSystem) (p : String) : Bool := (List.lookup p fs).isSome

/-- Model of `os.stat(p).st_size` for a file of the snapshot. -/
def statSize (fs : FileSystem) (p : String) : Nat := ((List.lookup p fs).getD []).length

/-- The static `file_types` extension table of `source_merger.py`
(the duplicated `".ui"` entry of the Python dict literal collapses to one). -/
def file_types : List (String × String) :=
  [(".html", "HTML"), (".css", "CSS"), (".js", "jsx"), (".ejs", "ejs"),
   (".md", "markdown"), (".py", "python"), (".txt", "txt"), (".cpp", "cpp"),
   (".c", "c"), (".h", "c"), (".hpp", "cpp"), (".java", "java"),
   (".cs", "csharp"), (".vb", "vb"), (".vbhtml", "vbhtml"), (".ui", "xml"),
   (".xml", "xml"), (".json", "json"), (".yml", "yaml"), (".ts", "typescript"),
   (".bat", "batch"), (".ps1", "powershell")]

/-- The external minifier libraries (`htmlmin`, `csscompressor`, `jsmin`,
`pyminifier`), as abstract text transforms; `Except.error` models a raise. -/
structure Minifiers where
  htmlmin : String → Except Unit String
  cssmin : String → Except Unit String
  jsmin : String → Except Unit String
  pyRemoveComments : String → Except Unit String
  pyRemoveBlank : String → Except Unit String
  pyReduceOps : String → Except Unit String
  pyDedent : String → Except Unit String
  pyFixEmpty : String → Except Unit String
  pyJoinPairs : String → Except Unit String

/-- `compressCode(code, file_type)`: dispatch on the tag inside a
`try`/`except` that logs and returns the current value of the local
variable `code`; the python branch reassigns `code` step by step, so a
raise in a later step returns the partially transformed text. -/
def compressCode (m : Minifiers) (code : String) (file_type : Option String) : String :=
  match file_type with
  | some "HTML" =>
    match m.htmlmin code with
    | .ok r => r
    | .error _ => code
  | some "CSS" =>
    match m.cssmin code with
    | .ok r => r
    | .error _ => code
  | some "jsx" =>
    match m.jsmin code with
    | .ok r => r
    | .error _ => code
  | some "python" =>
    match m.pyRemoveComments code with
    | .error _ => code
    | .ok c1 =>
      match m.pyRemoveBlank c1 with
      | .error _ => c1
      | .ok c2 =>
        match m.pyReduceOps c2 with
        | .error _ => c2
        | .ok c3 =>
          match m.pyDedent c3 with
          | .error _ => c3
          | .ok c4 =>
            match m.pyFixEmpty c4 with
            | .error _ => c4
            | .ok c5 =>
              match m.pyJoinPairs c5 with
              | .error _ => c5
              | .ok c6 => c6
  | _ => code

/-- The content-sniffing fallback of `getFileType`, inside its `try`:
`mimeOf` models `magic.Magic(mime=True).from_file` (`Except.error` models a
raise); when the MIME string contains `"text"` the file's first 1024
characters are read with a strict UTF-8 text read (whose decode failure is
an exception too) and ordered heuristics apply; when no heuristic matches,
or the MIME kind is not textual, control falls through to `return 'text'`. -/
def sniffType (mimeOf : String → Except Unit String) (fs : FileSystem) (file_path : String) :
    Except Unit String :=
  match mimeOf file_path with
  | .error e => .error e
  | .ok file_mime =>
    if strContains file_mime "text" then
      match List.lookup file_path fs with
      | none => .error ()
      | some bytes =>
        match utf8StrictAll bytes with
        | none => .error ()
        | some chars =>
          let content := String.mk ((univNewlines chars).take 1024)
          if strContains content "<?php" then .ok "php"
          else if strContains content "#!/usr/bin/env python" || strContains content "import " then
            .ok "python"
          else if strContains (lowerStr content) "<html" then .ok "HTML"
          else if strContains content "\x7b" && strContains content "\x7d" then .ok "json"
          else .ok "text"
    else .ok "text"

/-- `getFileType(file_path)`: extension table first; otherwise sniff, with
any exception in the `try` block logged and `None` returned. -/
def getFileType (mimeOf : String → Except Unit String) (fs : FileSystem) (file_path : String) :
    Option String :=
  match List.lookup (lowerStr (splitextExt file_path)) file_types with
  | some t => some t
  | none =>
    match sniffType mimeOf fs file_path with
    | .ok t => some t
    | .error _ => none

/-- The primary read of `processFile`: `open(..., encoding='utf-8',
errors="ignore")` — with `errors="ignore"` the decode is total, so this
read never raises `UnicodeDecodeError`. -/
def readTextUtf8Ignore (bytes : List Nat) : Except Unit String :=
  .ok (String.mk (univNewlines (utf8Ignore bytes)))

/-- `processFile(filename, extensions, minify)`: extension gate, primary
UTF-8 read with `errors="ignore"`, optional per-line `compressCode`, and a
UTF-16 retry under `except UnicodeDecodeError`; `none` models the
`(None, None)` return. -/
def processFile (m : Minifiers) (mimeOf : String → Except Unit String) (fs : FileSystem)
    (filename : String) (extensions : List String) (minify : Bool) :
    Option (String × String) :=
  if extensions.any (fun ext => endsWithStr filename ext) then
    match List.lookup filename fs with
    | none => none
    | some bytes =>
      match readTextUtf8Ignore bytes with
      | .ok txt =>
        let lines := splitLinesKeepEnds txt
        let contents :=
          if minify then
            String.join (lines.map (fun line => compressCode m line (getFileType mimeOf fs filename)))
          else String.join lines
        some (filename, contents)
      | .error _ =>
        match List.lookup filename fs with
        | none => none
        | some bytes2 =>
          let txt := String.mk (univNewlines (utf16Ignore bytes2))
          let lines := splitLinesKeepEnds txt
          let contents :=
            if minify then
              String.join (lines.map (fun line => compressCode m line (getFileType mimeOf fs filename)))
            else String.join lines
          some (filename, contents)
  else none

/-- An ASCII single quote, used by the html branch of `writeFileContents`. -/
def squote : String := String.mk [Char.ofNat 39]

/-- `writeFileContents(output_file, file_contents, file_type, relative_path,
output_format, minify)`: the text appended to the output file; minification
(on the whole body) happens first, then the format branch. -/
def writeFileContents (m : Minifiers) (file_contents0 : String) (file_type : String)
    (relative_path : String) (output_format : String) (minify : Bool) : String :=
  let file_contents := if minify then compressCode m file_contents0 (some file_type) else file_contents0
  if output_format = "markdown" || output_format = "md" then
    if file_type = "txt" then
      "## " ++ relative_path ++ "\n\n" ++ "> " ++ replaceStr file_contents "\n" "\n>\n> " ++ "\n\n"
    else
      "## " ++ relative_path ++ "\n\n" ++ "```" ++ file_type ++ "\n" ++
        replaceStr file_contents "```" "` ` `" ++ "\n```\n\n"
  else if output_format = "html" then
    "<h2>" ++ relative_path ++ "</h2>\n" ++ "<pre><code class=" ++ squote ++ file_type ++ squote ++ ">" ++
      file_contents ++ "</code></pre>\n"
  else if output_format = "txt" then
    relative_path ++ ":\n" ++ "\t" ++ replaceStr file_contents "\n" "\n\t" ++ "\n\n"
  else ""

/-- `writeFileToOutput(file_path, output_file, minify, base_dir,
output_format)`: classify (dropping the file when the tag is `None`),
re-read the file from disk with a strict UTF-8 read, falling back to a
UTF-16 `errors='ignore'` read under `except UnicodeDecodeError`, and append
`writeFileContents` of the re-read body. -/
def writeFileToOutput (m : Minifiers) (mimeOf : String → Except Unit String) (fs : FileSystem)
    (file_path : String) (minify : Bool) (base_dir : String) (output_format : String) : String :=
  match getFileType mimeOf fs file_path with
  | none => ""
  | some file_type =>
    let relative_path := relpath file_path base_dir
    match List.lookup file_path fs with
    | none => ""
    | some bytes =>
      match utf8StrictAll bytes with
      | some chars =>
        writeFileContents m (String.mk (univNewlines chars)) file_type relative_path output_format minify
      | none =>
        writeFileContents m (String.mk (univNewlines (utf16Ignore bytes))) file_type relative_path
          output_format minify

/-- The extension list actually used by `findFiles`: the table's keys when
`all_types` is set, then minus `exclude_extensions`. -/
def effectiveExtensions (all_types : Bool) (extensions exclude_extensions : List String) :
    List String :=
  (if all_types then file_types.map Prod.fst else extensions).filter
    (fun ext => decide (ext ∉ exclude_extensions))

/-- The inner predicate `should_process_file` of `findFiles`, applied after
`extensions` has already been rewritten to the effective list. -/
def should_process_file (fs : FileSystem) (ignore_files : List String) (all_types : Bool)
    (extensions : List String) (file_path : String) : Bool :=
  isfile fs file_path &&
  decide (statSize fs file_path ≠ 0) &&
  decide (basenameStr file_path ∉ ignore_files) &&
  (all_types || extensions.any (fun ext => endsWithStr file_path ext))

/-- The already-parsed configuration surface `findFiles` consumes. -/
structure Config where
  start_dir : String
  ignore_files : List String
  all_types : Bool
  extensions : List String
  exclude_extensions : List String
  name : String
  minify : Bool
  out : String
  output_format : String

/-- Lines 216-217 of `findFiles`: the output artifact's base name is
appended to `ignore_files` before any filtering. -/
def setupIgnoreFiles (cfg : Config) : List String :=
  cfg.ignore_files ++ [basenameStr (joinPath cfg.out (cfg.name ++ "." ++ cfg.output_format))]

/-- The candidate paths of the walk, filtered by `should_process_file`
(non-recursive single listing; the listing order is the snapshot order). -/
def candidateFiles (fs : FileSystem) (cfg : Config) : List String :=
  (fs.map Prod.fst).filter
    (should_process_file fs (setupIgnoreFiles cfg) cfg.all_types
      (effectiveExtensions cfg.all_types cfg.extensions cfg.exclude_extensions))

/-- Python `dict` assignment `d[k] = v`: overwrite in place when the key
exists, else append. -/
def dictInsert (d : List (String × String)) (k v : String) : List (String × String) :=
  if k ∈ d.map Prod.fst then d.map (fun kv => if kv.1 = k then (k, v) else kv)
  else d ++ [(k, v)]

/-- The fan-in loop over `as_completed(...)`: `arrival` is the completion
order of the extraction futures, a permutation of the submitted candidate
list that the thread pool does not control; results with a truthy filename
are inserted into the `foundFiles` dict in completion order. -/
def collectResults (m : Minifiers) (mimeOf : String → Except Unit String) (fs : FileSystem)
    (arrival : List String) (extensions : List String) (minify : Bool) :
    List (String × String) :=
  (arrival.filterMap (fun p => processFile m mimeOf fs p extensions minify)).foldl
    (fun d kv => dictInsert d kv.1 kv.2) []

/-- The dedup loop of `findFiles` (lines 255-258): an entry is kept when its
body is not already among the kept values and the output file name is not a
substring of its path. -/
def dedupeLoop (outName : String) (final : List (String × String)) :
    List (String × String) → List (String × String)
  | [] => final
  | kv :: rest =>
    if kv.2 ∉ final.map Prod.snd ∧ strContains kv.1 outName = false then
      dedupeLoop outName (dictInsert final kv.1 kv.2) rest
    else dedupeLoop outName final rest

def dedupeFiles (found : List (String × String)) (outName : String) : List (String × String) :=
  dedupeLoop outName [] found

/-- The markdown/md rendering branch: title heading, then for each kept
path `writeFileToOutput` (which re-reads the file; the stored body is not
passed). -/
def renderMarkdown (m : Minifiers) (mimeOf : String → Except Unit String) (fs : FileSystem)
    (finalFiles : List (String × String)) (name start_dir : String) (minify : Bool)
    (output_format : String) : String :=
  "# " ++ name ++ "\n\n" ++
    String.join (finalFiles.map (fun kv => writeFileToOutput m mimeOf fs kv.1 minify start_dir output_format))

/-- The txt rendering branch: no title line, same re-read per file. -/
def renderTxt (m : Minifiers) (mimeOf : String → Except Unit String) (fs : FileSystem)
    (finalFiles : List (String × String)) (start_dir : String) (minify : Bool) : String :=
  String.join (finalFiles.map (fun kv => writeFileToOutput m mimeOf fs kv.1 minify start_dir "txt"))

/-- How an `Optional[str]` renders inside a Python f-string. -/
def tagString : Option String → String
  | some t => t
  | none => "None"

/-- The pdf branch's `md_content` (lines 273-276): built from the stored
bodies, fenced with the tag's f-string rendering, with no escaping of the
body. -/
def pdfMarkdownContent (mimeOf : String → Except Unit String) (fs : FileSystem)
    (finalFiles : List (String × String)) (name start_dir : String) : String :=
  "# " ++ name ++ "\n\n" ++
    String.join (finalFiles.map (fun kv =>
      "## " ++ relpath kv.1 start_dir ++ "\n\n" ++ "```" ++ tagString (getFileType mimeOf fs kv.1) ++
        "\n" ++ kv.2 ++ "\n```\n\n"))

/-- Outcome of a run: the artifact text handed to the output file (or to
the external pdf engine), or an aborted run. `findFiles` wraps all writing
in `try`/`except` that only logs, so no branch of it aborts. -/
inductive RunOutcome where
  | completed (artifact : String)
  | aborted
deriving DecidableEq

/-- The body of `findFiles` after the walk: fan-out/fan-in in `arrival`
(completion) order, dedup, then the format branch. The html branch
delegates to an external jinja template and the pdf branch hands
`md_content` to the external engine; exceptions of the whole block are
caught and logged, so every branch completes. -/
def findFilesRun (m : Minifiers) (mimeOf : String → Except Unit String) (fs : FileSystem)
    (cfg : Config) (arrival : List String) : RunOutcome :=
  let exts := effectiveExtensions cfg.all_types cfg.extensions cfg.exclude_extensions
  let found := collectResults m mimeOf fs arrival exts cfg.minify
  let finalFiles := dedupeFiles found (cfg.name ++ "." ++ cfg.output_format)
  if cfg.output_format = "markdown" || cfg.output_format = "md" then
    .completed (renderMarkdown m mimeOf fs finalFiles cfg.name cfg.start_dir cfg.minify cfg.output_format)
  else if cfg.output_format = "html" then
    .completed ""
  else if cfg.output_format = "pdf" then
    .completed (pdfMarkdownContent mimeOf fs finalFiles cfg.name cfg.start_dir)
  else if cfg.output_format = "txt" then
    .completed (renderTxt m mimeOf fs finalFiles cfg.start_dir cfg.minify)
  else .completed ""

/-- Result of `Repo.clone_from` / `repo.git.checkout`: the checked-out
working copy, or a `GitCommandError`. -/
inductive CloneResult where
  | ok (files : FileSystem)
  | err

/-- `clone_repository`: the `GitCommandError` is caught and logged inside
the function, which then implicitly returns `None`. -/
def clone_repository (r : CloneResult) (temp_dir : String) : Option String :=
  match r with
  | .ok _ => some temp_dir
  | .err => none

/-- `process_remote_repository`: clone into a fresh temporary directory
(empty when the clone failed, since the error was swallowed) and run
`findFiles` on it regardless of the clone's outcome. -/
def process_remote_repository (m : Minifiers) (mimeOf : String → Except Unit String)
    (r : CloneResult) (cfg : Config) : RunOutcome :=
  let fs : FileSystem :=
    match r with
    | .ok files => files
    | .err => []
  findFilesRun m mimeOf fs cfg (candidateFiles fs cfg)

/-- Modelled from the spec's dedup wording restricted to what the loop
actually consults: keep the first entry, in the collection's iteration
order, of each distinct body, among entries whose path does not contain
the output name. Used to characterise `dedupeFiles`. -/
def keepFirstByBody (outName : String) (seen : List String) :
    List (String × String) → List (String × String)
  | [] => []
  | kv :: rest =>
    if strContains kv.1 outName = false then
      if kv.2 ∈ seen then keepFirstByBody outName seen rest
      else kv :: keepFirstByBody outName (seen ++ [kv.2]) rest
    else keepFirstByBody outName seen rest

/-- The exclusion predicate exactly as the spec states it (claim C6):
size 0, or ignored base name, or — with `all_types` off — the file's
extension (in the `os.path.splitext` sense used elsewhere in the program)
not in the effective extension set. -/
def specExcludedFile (fs : FileSystem) (ignore_files : List String) (all_types : Bool)
    (effective : List String) (file_path : String) : Bool :=
  decide (statSize fs file_path = 0) ||
  decide (basenameStr file_path ∈ ignore_files) ||
  (!all_types && decide (splitextExt file_path ∉ effective))

/-- The pdf `md_content` as the spec describes it (claim C9): identical to
`pdfMarkdownContent` except that every triple backtick of a body is
escaped before embedding. -/
def pdfMarkdownContentEscaped (mimeOf : String → Except Unit String) (fs : FileSystem)
    (finalFiles : List (String × String)) (name start_dir : String) : String :=
  "# " ++ name ++ "\n\n" ++
    String.join (finalFiles.map (fun kv =>
      "## " ++ relpath kv.1 start_dir ++ "\n\n" ++ "```" ++ tagString (getFileType mimeOf fs kv.1) ++
        "\n" ++ replaceStr kv.2 "```" "` ` `" ++ "\n```\n\n"))

/-- A minifier instantiation whose transforms never raise and change
nothing: used where minification is off or irrelevant. -/
def idMinifiers : Minifiers :=
  ⟨fun s => .ok s, fun s => .ok s, fun s => .ok s, fun s => .ok s, fun s => .ok s,
   fun s => .ok s, fun s => .ok s, fun s => .ok s, fun s => .ok s⟩

/-- A libmagic instantiation that always raises (never consulted when the
extension table hits). -/
def mimeRaise : String → Except Unit String := fun _ => .error ()

/-- A minifier instantiation whose python chain succeeds in its first step
(rewriting the text to `""`) and raises in its second step. -/
def failingPyMinifiers : Minifiers :=
  ⟨fun s => .ok s, fun s => .ok s, fun s => .ok s, fun _ => .ok "", fun _ => .error (),
   fun s => .ok s, fun s => .ok s, fun s => .ok s, fun s => .ok s⟩

/-- C1 counterexample: with two byte-identical bodies arriving with the
lexically later path first (a completion order the thread pool permits),
the dedup loop keeps `"b.py"`, not the lexically first `"a.py"`: the claim
that the lexically first path is retained is false. -/
theorem C1_counterexample :
    dedupeFiles [("b.py", "x"), ("a.py", "x")] "SourceCode.txt" = [("b.py", "x")] ∧
    "a.py".data < "b.py".data := by decide

/-- C4: the claim is right and the code is wrong. A UTF-16 file (BOM +
"hi") fails a strict UTF-8 decode and decodes to "hi" under the secondary
encoding, but `processFile` opens with `errors="ignore"`, which never
raises, so the `except UnicodeDecodeError` retry is dead and the extracted
body is the mojibake of ignoring the undecodable bytes. -/
theorem C4_encoding_fallback_dead :
    utf8StrictAll [255, 254, 104, 0, 105, 0] = none ∧
    String.mk (utf16Ignore [255, 254, 104, 0, 105, 0]) = "hi" ∧
    processFile idMinifiers mimeRaise [("n.txt", [255, 254, 104, 0, 105, 0])] "n.txt" [".txt"] false
      = some ("n.txt", "h\x00i\x00") ∧
    ("h\x00i\x00" : String) ≠ "hi" := by decide

/-- C5 counterexample: when the python transform chain raises in its second
step, `compressCode` returns the output of the first step (here `""`), not
the original body `"x"`: the claim that the original unshrunk body is
returned is false. -/
theorem C5_counterexample :
    failingPyMinifiers.pyRemoveComments "x" = .ok "" ∧
    failingPyMinifiers.pyRemoveBlank "" = .error () ∧
    compressCode failingPyMinifiers "x" (some "python") = "" ∧
    ("" : String) ≠ "x" :=
  ⟨rfl, rfl, by decide, by decide⟩

/-- C6 counterexample: a non-empty dotfile `proj/.env` with configured
extensions `[".env"]` is included by `should_process_file` (suffix match),
yet the spec's rule says it is excluded (its `os.path.splitext` extension
is `""`, which is not in the effective set): the claimed equivalence is
false at this input. -/
theorem C6_counterexample :
    should_process_file [("proj/.env", [49])] [] false (effectiveExtensions false [".env"] [])
        "proj/.env" = true ∧
    specExcludedFile [("proj/.env", [49])] [] false (effectiveExtensions false [".env"] [])
        "proj/.env" = true ∧
    ¬(should_process_file [("proj/.env", [49])] [] false (effectiveExtensions false [".env"] [])
          "proj/.env" = false ↔
        specExcludedFile [("proj/.env", [49])] [] false (effectiveExtensions false [".env"] [])
          "proj/.env" = true) := by decide

/-- C8 counterexample: when the checkout fails, the error is logged and
swallowed, and the run proceeds to discovery over the empty temporary
directory and completes with an output artifact — it does not abort. -/
theorem C8_counterexample :
    process_remote_repository idMinifiers mimeRaise CloneResult.err
        ⟨"tmp", [], false, [".txt"], [], "Out", false, ".", "md"⟩ =
      RunOutcome.completed "# Out\n\n" ∧
    process_remote_repository idMinifiers mimeRaise CloneResult.err
        ⟨"tmp", [], false, [".txt"], [], "Out", false, ".", "md"⟩ ≠ RunOutcome.aborted := by decide

/-- C9 counterexample: the pdf path's `md_content` embeds a body containing
a literal triple backtick verbatim (no escaping), differing from the
escaped rendering the claim requires, so the body closes the fence early. -/
theorem C9_counterexample :
    pdfMarkdownContent mimeRaise [("p/f.py", [120])] [("p/f.py", "a\n```\nb")] "T" "p" ≠
      pdfMarkdownContentEscaped mimeRaise [("p/f.py", [120])] [("p/f.py", "a\n```\nb")] "T" "p" ∧
    strContains (pdfMarkdownContent mimeRaise [("p/f.py", [120])] [("p/f.py", "a\n```\nb")] "T" "p")
        "\n```\nb" = true := by decide

/-- C2 counterexample: a fixed snapshot and configuration, two completion
orders that are permutations of the same deterministic candidate list, and
two different rendered artifacts: the pipeline's output is not a function
of the snapshot and configuration alone, and is not in lexical path order. -/
theorem C2_counterexample :
    candidateFiles [("proj/a.txt", [49]), ("proj/b.txt", [50])]
        ⟨"proj", [], false, [".txt"], [], "Out", false, ".", "txt"⟩ =
      ["proj/a.txt", "proj/b.txt"] ∧
    List.Perm ["proj/a.txt", "proj/b.txt"] ["proj/b.txt", "proj/a.txt"] ∧
    findFilesRun idMinifiers mimeRaise [("proj/a.txt", [49]), ("proj/b.txt", [50])]
        ⟨"proj", [], false, [".txt"], [], "Out", false, ".", "txt"⟩ ["proj/a.txt", "proj/b.txt"] ≠
      findFilesRun idMinifiers mimeRaise [("proj/a.txt", [49]), ("proj/b.txt", [50])]
        ⟨"proj", [], false, [".txt"], [], "Out", false, ".", "txt"⟩ ["proj/b.txt", "proj/a.txt"] := by
  refine ⟨by decide, List.Perm.swap "proj/b.txt" "proj/a.txt" [], by decide⟩

/-- A minifier instantiation whose python transform prefixes `"N"`: makes
the line-wise and whole-body applications of `compressCode` observable. -/
def prefixMinifiers : Minifiers :=
  ⟨fun s => .ok s, fun s => .ok s, fun s => .ok s, fun s => .ok ("N" ++ s), fun s => .ok s,
   fun s => .ok s, fun s => .ok s, fun s => .ok s, fun s => .ok s⟩

/-- C5 amended: a raise in a single-call transform (HTML, CSS, jsx), or in
the first step of the python chain, returns the original body; a raise in a
later python step returns the output of the preceding step, which may
already be partially minified; an unregistered tag passes through; and
`compressCode` always returns a body, so a transform failure never drops
the file. -/
theorem C5_transform_failure_fallback (m : Minifiers) (code : String) :
    (m.htmlmin code = .error () → compressCode m code (some "HTML") = code) ∧
    (m.cssmin code = .error () → compressCode m code (some "CSS") = code) ∧
    (m.jsmin code = .error () → compressCode m code (some "jsx") = code) ∧
    (m.pyRemoveComments code = .error () → compressCode m code (some "python") = code) ∧
    (∀ c1, m.pyRemoveComments code = .ok c1 → m.pyRemoveBlank c1 = .error () →
      compressCode m code (some "python") = c1) ∧
    compressCode m code none = code := by
  refine ⟨?_, ?_, ?_, ?_, ?_, rfl⟩
  · intro h; simp [compressCode, h]
  · intro h; simp [compressCode, h]
  · intro h; simp [compressCode, h]
  · intro h; simp [compressCode, h]
  · intro c1 h1 h2; simp [compressCode, h1, h2]

theorem C5_transform_failure_fallback_witness :
    compressCode failingPyMinifiers "x" (some "python") = "" ∧
    compressCode failingPyMinifiers "x" none = "x" :=
  ⟨(C5_transform_failure_fallback failingPyMinifiers "x").2.2.2.2.1 "" rfl rfl,
   (C5_transform_failure_fallback failingPyMinifiers "x").2.2.2.2.2⟩

/-- C8 amended: no branch of `findFiles` ever aborts (the whole rendering
block is inside a logging `try`/`except`), and a failed checkout is
swallowed, after which the run proceeds to discovery over the empty
temporary directory and completes. -/
theorem C8_swallowed_checkout_failure :
    (∀ m mimeOf fs cfg arrival, findFilesRun m mimeOf fs cfg arrival ≠ RunOutcome.aborted) ∧
    (∀ m mimeOf cfg, process_remote_repository m mimeOf CloneResult.err cfg =
      findFilesRun m mimeOf [] cfg (candidateFiles [] cfg)) := by
  constructor
  · intro m mimeOf fs cfg arrival
    unfold findFilesRun
    repeat' split
    all_goals simp
  · intro m mimeOf cfg
    rfl

theorem C8_swallowed_checkout_failure_witness :
    process_remote_repository idMinifiers mimeRaise CloneResult.err
        ⟨"tmp", [], false, [".txt"], [], "Out", false, ".", "txt"⟩ =
      findFilesRun idMinifiers mimeRaise []
        ⟨"tmp", [], false, [".txt"], [], "Out", false, ".", "txt"⟩
        (candidateFiles [] ⟨"tmp", [], false, [".txt"], [], "Out", false, ".", "txt"⟩) :=
  C8_swallowed_checkout_failure.2 idMinifiers mimeRaise
    ⟨"tmp", [], false, [".txt"], [], "Out", false, ".", "txt"⟩

theorem join_singleton (x : String) : String.join [x] = x := by
  show "" ++ x = x
  simp

/-- C9 amended: triple-backtick escaping happens only in the markdown/md
renderer's fenced branch (shown here for a fenced tag), where a single
triple backtick is indeed neutralised; the pdf path's `md_content` embeds
the stored body verbatim, with no escaping at all. -/
theorem C9_escape_only_in_markdown :
    (∀ m body rel minify,
      writeFileContents m body "python" rel "markdown" minify =
        "## " ++ rel ++ "\n\n" ++ "```" ++ "python" ++ "\n" ++
          replaceStr (if minify then compressCode m body (some "python") else body) "```" "` ` `" ++
          "\n```\n\n") ∧
    strContains (replaceStr "a\n```\nb" "```" "` ` `") "```" = false ∧
    (∀ mimeOf fs name dir p body,
      pdfMarkdownContent mimeOf fs [(p, body)] name dir =
        "# " ++ name ++ "\n\n" ++
          ("## " ++ relpath p dir ++ "\n\n" ++ "```" ++ tagString (getFileType mimeOf fs p) ++
            "\n" ++ body ++ "\n```\n\n")) := by
  refine ⟨?_, by decide, ?_⟩
  · intro m body rel minify
    rfl
  · intro mimeOf fs name dir p body
    simp only [pdfMarkdownContent, List.map_cons, List.map_nil, join_singleton]

/-- C10: the markdown/md and txt renderers ignore the stored (deduplicated)
bodies — replacing every stored body by `""` leaves the artifact unchanged,
because `writeFileToOutput` re-reads each path from disk (strict UTF-8 with
its own UTF-16 fallback) and, under `minify`, applies `compressCode` to the
whole re-read body even though extraction already applied it line by line.
Concretely: a UTF-16 file dedups under the mojibake body `"A\x00"` but
renders as `"A"`, and a minified python file dedups under the line-wise
minified body while rendering the whole-body minification. -/
theorem C10_render_rereads_from_disk :
    (∀ m mimeOf fs final name dir minify fmt,
      renderMarkdown m mimeOf fs final name dir minify fmt =
        renderMarkdown m mimeOf fs (final.map (fun kv => (kv.1, ""))) name dir minify fmt) ∧
    (∀ m mimeOf fs final dir minify,
      renderTxt m mimeOf fs final dir minify =
        renderTxt m mimeOf fs (final.map (fun kv => (kv.1, ""))) dir minify) ∧
    processFile idMinifiers mimeRaise [("p/n.txt", [255, 254, 65, 0])] "p/n.txt" [".txt"] false =
      some ("p/n.txt", "A\x00") ∧
    writeFileToOutput idMinifiers mimeRaise [("p/n.txt", [255, 254, 65, 0])] "p/n.txt" false "p"
        "txt" = "n.txt:\n\tA\n\n" ∧
    ("A\x00" : String) ≠ "A" ∧
    processFile prefixMinifiers mimeRaise [("p/c.py", [120, 10, 10, 121])] "p/c.py" [".py"] true =
      some ("p/c.py", "Nx\nN\nNy") ∧
    writeFileToOutput prefixMinifiers mimeRaise [("p/c.py", [120, 10, 10, 121])] "p/c.py" true "p"
        "txt" = "c.py:\n\tNx\n\t\n\ty\n\n" ∧
    ("Nx\nN\nNy" : String) ≠ "Nx\n\ny" := by
  refine ⟨?_, ?_, by decide, by decide, by decide, by decide, by decide, by decide⟩
  · intro m mimeOf fs final name dir minify fmt
    unfold renderMarkdown
    rw [List.map_map]
    rfl
  · intro m mimeOf fs final dir minify
    unfold renderTxt
    rw [List.map_map]
    rfl

theorem dictInsert_fresh (d : List (String × String)) (k v : String)
    (h : k ∉ d.map Prod.fst) : dictInsert d k v = d ++ [(k, v)] := by
  unfold dictInsert
  rw [if_neg h]

theorem processFile_fst {m : Minifiers} {mimeOf : String → Except Unit String} {fs : FileSystem}
    {p : String} {exts : List String} {minify : Bool} {kv : String × String}
    (h : processFile m mimeOf fs p exts minify = some kv) : kv.1 = p := by
  unfold processFile at h
  split at h
  · cases hl : List.lookup p fs with
    | none => rw [hl] at h; exact absurd h (by simp)
    | some bytes =>
      rw [hl] at h
      simp only [readTextUtf8Ignore] at h
      injection h with h2
      rw [← h2]
  · exact absurd h (by simp)

theorem foldl_dictInsert_eq_append (l : List (String × String)) :
    ∀ acc, (l.map Prod.fst).Nodup → (∀ k ∈ l.map Prod.fst, k ∉ acc.map Prod.fst) →
      l.foldl (fun d kv => dictInsert d kv.1 kv.2) acc = acc ++ l := by
  induction l with
  | nil => intro acc _ _; simp
  | cons kv rest ih =>
    intro acc hnd hdis
    have hnd' : (rest.map Prod.fst).Nodup := by
      simp only [List.map_cons, List.nodup_cons] at hnd
      exact hnd.2
    have hd : ∀ k ∈ rest.map Prod.fst, k ∉ (acc ++ [kv]).map Prod.fst := by
      intro k hk
      have hka : k ∉ acc.map Prod.fst := hdis k (by simp [hk])
      have hkk : k ≠ kv.1 := by
        simp only [List.map_cons, List.nodup_cons] at hnd
        intro he
        exact hnd.1 (he ▸ hk)
      simp [hka, hkk]
    simp only [List.foldl_cons]
    rw [dictInsert_fresh acc kv.1 kv.2 (hdis kv.1 (by simp))]
    rw [ih (acc ++ [kv]) hnd' hd]
    simp

theorem dedupeLoop_eq_keepFirst (outName : String) (l : List (String × String)) :
    ∀ final, (l.map Prod.fst).Nodup →
      (∀ k ∈ l.map Prod.fst, k ∉ final.map Prod.fst) →
      dedupeLoop outName final l = final ++ keepFirstByBody outName (final.map Prod.snd) l := by
  induction l with
  | nil => intro final _ _; simp [dedupeLoop, keepFirstByBody]
  | cons kv rest ih =>
    intro final hnd hdis
    have hnd' : (rest.map Prod.fst).Nodup := by
      simp only [List.map_cons, List.nodup_cons] at hnd
      exact hnd.2
    have hkv : kv.1 ∉ final.map Prod.fst := hdis kv.1 (by simp)
    simp only [dedupeLoop, keepFirstByBody]
    by_cases hc : strContains kv.1 outName = false
    · by_cases hm : kv.2 ∈ final.map Prod.snd
      · rw [if_neg (fun hand => hand.1 hm), if_pos hc, if_pos hm]
        exact ih final hnd' (fun k hk => hdis k (by simp [hk]))
      · rw [if_pos ⟨hm, hc⟩, if_pos hc, if_neg hm]
        rw [dictInsert_fresh final kv.1 kv.2 hkv]
        have hd : ∀ k ∈ rest.map Prod.fst, k ∉ (final ++ [kv]).map Prod.fst := by
          intro k hk
          have hka : k ∉ final.map Prod.fst := hdis k (by simp [hk])
          have hkk : k ≠ kv.1 := by
            simp only [List.map_cons, List.nodup_cons] at hnd
            intro he
            exact hnd.1 (he ▸ hk)
          simp [hka, hkk]
        rw [ih (final ++ [kv]) hnd' hd]
        simp
    · rw [if_neg (fun hand => hc hand.2), if_neg hc]
      exact ih final hnd' (fun k hk => hdis k (by simp [hk]))

theorem keepFirstByBody_sublist (outName : String) (l : List (String × String)) :
    ∀ seen, (keepFirstByBody outName seen l).Sublist l := by
  induction l with
  | nil => intro seen; simp [keepFirstByBody]
  | cons kv rest ih =>
    intro seen
    simp only [keepFirstByBody]
    by_cases hc : strContains kv.1 outName = false
    · rw [if_pos hc]
      by_cases hm : kv.2 ∈ seen
      · rw [if_pos hm]
        exact (ih seen).cons kv
      · rw [if_neg hm]
        exact (ih (seen ++ [kv.2])).cons₂ kv
    · rw [if_neg hc]
      exact (ih seen).cons kv

theorem keepFirstByBody_snd_nodup (outName : String) (l : List (String × String)) :
    ∀ seen, ((keepFirstByBody outName seen l).map Prod.snd).Nodup ∧
      (∀ v ∈ (keepFirstByBody outName seen l).map Prod.snd, v ∉ seen) := by
  induction l with
  | nil => intro seen; simp [keepFirstByBody]
  | cons kv rest ih =>
    intro seen
    simp only [keepFirstByBody]
    by_cases hc : strContains kv.1 outName = false
    · rw [if_pos hc]
      by_cases hm : kv.2 ∈ seen
      · rw [if_pos hm]
        exact ih seen
      · rw [if_neg hm]
        obtain ⟨h1, h2⟩ := ih (seen ++ [kv.2])
        refine ⟨?_, ?_⟩
        · simp only [List.map_cons, List.nodup_cons]
          exact ⟨fun hmem => (h2 kv.2 hmem) (by simp), h1⟩
        · intro v hv
          simp only [List.map_cons, List.mem_cons] at hv
          rcases hv with rfl | hv
          · exact hm
          · exact fun hvseen => (h2 v hv) (by simp [hvseen])
    · rw [if_neg hc]
      exact ih seen

/-- C1 amended: over a found collection with distinct paths (as a Python
dict guarantees), the dedup loop retains, for each distinct body, exactly
the first entry in the collection's iteration order — the completion order
of the concurrent extraction — among entries not containing the output
name; it does not re-sort, so the retained path is not in general the
lexically first duplicate. The kept bodies are pairwise distinct. -/
theorem C1_dedupe_keeps_first_seen (found : List (String × String)) (outName : String)
    (h : (found.map Prod.fst).Nodup) :
    dedupeFiles found outName = keepFirstByBody outName [] found ∧
    ((dedupeFiles found outName).map Prod.snd).Nodup := by
  have he : dedupeFiles found outName = keepFirstByBody outName [] found := by
    unfold dedupeFiles
    have hx := dedupeLoop_eq_keepFirst outName found [] h (by simp)
    simpa using hx
  exact ⟨he, he ▸ (keepFirstByBody_snd_nodup outName found []).1⟩

theorem C1_dedupe_keeps_first_seen_witness :
    (([("b.py", "x"), ("a.py", "y"), ("c.py", "x")] : List (String × String)).map
        Prod.fst).Nodup ∧
    dedupeFiles [("b.py", "x"), ("a.py", "y"), ("c.py", "x")] "Out.txt" =
      keepFirstByBody "Out.txt" [] [("b.py", "x"), ("a.py", "y"), ("c.py", "x")] :=
  ⟨by decide, (C1_dedupe_keeps_first_seen [("b.py", "x"), ("a.py", "y"), ("c.py", "x")] "Out.txt"
      (by decide)).1⟩

theorem filterMap_processFile_fst_sublist (m : Minifiers) (mimeOf : String → Except Unit String)
    (fs : FileSystem) (exts : List String) (minify : Bool) (arrival : List String) :
    ((arrival.filterMap fun p => processFile m mimeOf fs p exts minify).map Prod.fst).Sublist
      arrival := by
  induction arrival with
  | nil => simp
  | cons p rest ih =>
    rw [List.filterMap_cons]
    cases hp : processFile m mimeOf fs p exts minify with
    | none => exact ih.cons p
    | some kv =>
      simp only [List.map_cons]
      rw [processFile_fst hp]
      exact ih.cons₂ p

/-- C2 amended: for a fixed completion order the pipeline is a function
(the embedding is deterministic), but the rendered file order is the
fan-in completion order: the paths of the deduplicated set are a sublist
of the arrival order of the extraction futures — not a lexical re-sort of
them, as the counterexample run shows. -/
theorem C2_output_order_follows_completion (m : Minifiers) (mimeOf : String → Except Unit String)
    (fs : FileSystem) (exts : List String) (minify : Bool) (outName : String)
    (arrival : List String) (h : arrival.Nodup) :
    ((dedupeFiles (collectResults m mimeOf fs arrival exts minify) outName).map Prod.fst).Sublist
      arrival := by
  have hsub := filterMap_processFile_fst_sublist m mimeOf fs exts minify arrival
  have hnodup : (((arrival.filterMap fun p => processFile m mimeOf fs p exts minify)).map
      Prod.fst).Nodup := h.sublist hsub
  unfold collectResults
  rw [foldl_dictInsert_eq_append _ [] hnodup (by simp)]
  unfold dedupeFiles
  rw [dedupeLoop_eq_keepFirst outName _ [] (by simpa using hnodup) (by simp)]
  simp only [List.nil_append, List.map_nil]
  exact ((keepFirstByBody_sublist outName _ []).map Prod.fst).trans hsub

theorem C2_output_order_follows_completion_witness :
    (["proj/b.txt", "proj/a.txt"] : List String).Nodup ∧
    ((dedupeFiles (collectResults idMinifiers mimeRaise
          [("proj/a.txt", [49]), ("proj/b.txt", [50])] ["proj/b.txt", "proj/a.txt"] [".txt"] false)
        "Out.txt").map Prod.fst).Sublist ["proj/b.txt", "proj/a.txt"] :=
  ⟨by decide,
   C2_output_order_follows_completion idMinifiers mimeRaise
     [("proj/a.txt", [49]), ("proj/b.txt", [50])] [".txt"] false "Out.txt"
     ["proj/b.txt", "proj/a.txt"] (by decide)⟩

/-- C6 amended: for an existing file, exclusion holds exactly when the size
is 0, or the base name is ignored, or — with the all-types flag off — no
extension of the effective set (`extensions − excludeExtensions`) is a
suffix of the path: the code matches path suffixes, not the
`os.path.splitext` extension the spec's wording denotes (the two differ on
dotfiles, see the counterexample). An empty file is never included. -/
theorem C6_exclusion_rule :
    (∀ fs ignore allT exts excl p, isfile fs p = true →
      (should_process_file fs ignore allT (effectiveExtensions allT exts excl) p = false ↔
        (statSize fs p = 0 ∨ basenameStr p ∈ ignore ∨
          (allT = false ∧ ∀ ext ∈ effectiveExtensions allT exts excl,
            endsWithStr p ext = false)))) ∧
    (∀ fs ignore allT exts p, statSize fs p = 0 →
      should_process_file fs ignore allT exts p = false) := by
  constructor
  · intro fs ignore allT exts excl p hf
    unfold should_process_file
    rw [hf]
    rw [← Bool.not_eq_true]
    simp only [Bool.true_and, Bool.and_eq_true, Bool.or_eq_true, decide_eq_true_eq,
      List.any_eq_true]
    cases allT with
    | false => simp; tauto
    | true => simp; tauto
  · intro fs ignore allT exts p h0
    unfold should_process_file
    simp [h0]

theorem C6_exclusion_rule_witness :
    isfile [("a/e.py", [])] "a/e.py" = true ∧
    should_process_file [("a/e.py", [])] [] false (effectiveExtensions false [".py"] [])
      "a/e.py" = false :=
  ⟨by decide,
   (C6_exclusion_rule.1 [("a/e.py", [])] [] false [".py"] [] "a/e.py" (by decide)).mpr
     (Or.inl (by decide))⟩

theorem foldl_basename_no_slash (l : List Char) :
    ∀ acc, '/' ∉ l →
      l.foldl (fun acc c => if c = '/' then [] else acc ++ [c]) acc = acc ++ l := by
  induction l with
  | nil => intro acc _; simp
  | cons c rest ih =>
    intro acc h
    rw [List.mem_cons, not_or] at h
    simp only [List.foldl_cons]
    rw [if_neg (Ne.symm h.1)]
    rw [ih (acc ++ [c]) h.2]
    simp

theorem basenameChars_no_slash (l : List Char) (h : '/' ∉ l) : basenameChars l = l := by
  unfold basenameChars
  rw [foldl_basename_no_slash l [] h]
  simp

theorem basenameChars_append_slash (xs ys : List Char) :
    basenameChars (xs ++ '/' :: ys) = basenameChars ys := by
  unfold basenameChars
  rw [List.foldl_append]
  simp

theorem basename_joinPath (out f : String) (hf : '/' ∉ f.data) :
    basenameStr (joinPath out f) = f := by
  unfold joinPath basenameStr
  split
  · rw [basenameChars_no_slash f.data hf]
  · split
    · next hne hlast =>
      obtain ⟨ini, hinit⟩ := List.getLast?_eq_some_iff.mp hlast
      show String.mk (basenameChars (out.data ++ f.data)) = f
      rw [hinit, List.append_assoc, List.singleton_append, basenameChars_append_slash,
        basenameChars_no_slash f.data hf]
    · have hdata : (out ++ "/" ++ f).data = out.data ++ '/' :: f.data := by
        show (out.data ++ ['/']) ++ f.data = out.data ++ '/' :: f.data
        rw [List.append_assoc]
        rfl
      show String.mk (basenameChars (out ++ "/" ++ f).data) = f
      rw [hdata, basenameChars_append_slash, basenameChars_no_slash f.data hf]

/-- C7 confirmed: the output artifact's base name (for a name and format
without path separators) is appended to `ignore_files` before filtering, so
any file whose base name equals `name.format` — in particular a prior run's
output with the same configured name and format — fails
`should_process_file` and never enters the candidate set. -/
theorem C7_self_exclusion (fs : FileSystem) (cfg : Config) (p : String)
    (hn : '/' ∉ (cfg.name ++ "." ++ cfg.output_format).data)
    (hp : basenameStr p = cfg.name ++ "." ++ cfg.output_format) :
    should_process_file fs (setupIgnoreFiles cfg) cfg.all_types
        (effectiveExtensions cfg.all_types cfg.extensions cfg.exclude_extensions) p = false ∧
    p ∉ candidateFiles fs cfg := by
  have hb : basenameStr (joinPath cfg.out (cfg.name ++ "." ++ cfg.output_format)) =
      cfg.name ++ "." ++ cfg.output_format := basename_joinPath _ _ hn
  have hmem : basenameStr p ∈ setupIgnoreFiles cfg := by
    rw [hp]
    unfold setupIgnoreFiles
    simp [hb]
  have h1 : should_process_file fs (setupIgnoreFiles cfg) cfg.all_types
      (effectiveExtensions cfg.all_types cfg.extensions cfg.exclude_extensions) p = false := by
    unfold should_process_file
    simp [hmem]
  refine ⟨h1, fun hin => ?_⟩
  have h2 := (List.mem_filter.mp hin).2
  rw [h1] at h2
  exact absurd h2 (by simp)

theorem C7_self_exclusion_witness :
    ('/' ∉ ("Out" ++ "." ++ "txt").data) ∧
    should_process_file [("proj/Out.txt", [49])]
        (setupIgnoreFiles ⟨"proj", [], false, [".txt"], [], "Out", false, "dir", "txt"⟩) false
        (effectiveExtensions false [".txt"] []) "proj/Out.txt" = false :=
  ⟨by decide,
   (C7_self_exclusion [("proj/Out.txt", [49])]
      ⟨"proj", [], false, [".txt"], [], "Out", false, "dir", "txt"⟩ "proj/Out.txt" (by decide)
      (by decide)).1⟩
